import Mathlib

/-!
Shallow embedding of the two exported date helpers of `src/server.ts`
(`getWeekOffset` and `normaliseDate`) of the bedrock-mcp repository.

Conventions of the embedding:
* JavaScript runtime values that can reach the two functions are modelled by
  `JSValue` (the TypeScript signatures say `string`, but both functions guard
  against falsy / non-string arguments, so the dynamic semantics matters).
* A thrown JavaScript `TypeError` (calling a string method on a non-string
  receiver) is modelled as `none`; a normal return is `some`.
* `Date.now()` / `new Date()` is an explicit integer parameter `now`, in
  milliseconds since the Unix epoch, as in JavaScript.
* `new Date(s ++ "T00:00:00Z").getTime()` for a `\d{4}-\d{2}-\d{2}` string is
  modelled by `parseCanonMs`: V8 validates month and calendar day of ISO date
  strings and yields an invalid date (`NaN`, here `none`) otherwise.
* Regular expressions are replaced by hand-rolled matchers over `List Char`.
  Greedy matching without backtracking is equivalent to the source regexes
  here because in every quantified position the following regex atom cannot
  consume a character the greedy step took (digits are never separators,
  ordinal-suffix letters are never whitespace, etc.).
* `toLowerCase` is modelled per `Char` on ASCII (`Char.toLower`); every string
  the claims quantify over concretely is ASCII.
* All millisecond arithmetic stays below 2^53, where JavaScript doubles are
  exact, so integer arithmetic is a faithful model.
-/

/-- The fragment of JavaScript runtime values relevant to the two helpers. -/
inductive JSValue where
  | null
  | undef
  | str (s : String)
  | num (n : Int)
  | bool (b : Bool)
deriving DecidableEq

/-- JavaScript truthiness (`!v` is `!truthy v`) on the modelled fragment. -/
def truthy : JSValue → Bool
  | .null => false
  | .undef => false
  | .str s => !(s == "")
  | .num n => !(n == 0)
  | .bool b => b

/-- `typeof v === 'string'`. -/
def isString : JSValue → Bool
  | .str _ => true
  | _ => false

/-- The JavaScript whitespace class used by `String.prototype.trim`. -/
def jsIsSpace (c : Char) : Bool :=
  c == '\t' || c == '\n' || c == '\x0b' || c == '\x0c' || c == '\r' || c == ' ' ||
  c == '\u00A0' || c == '\u1680' || c == '\u2000' || c == '\u2001' || c == '\u2002' ||
  c == '\u2003' || c == '\u2004' || c == '\u2005' || c == '\u2006' || c == '\u2007' ||
  c == '\u2008' || c == '\u2009' || c == '\u200A' || c == '\u2028' || c == '\u2029' ||
  c == '\u202F' || c == '\u205F' || c == '\u3000' || c == '\uFEFF'

/-- Strip leading and trailing JavaScript whitespace from a character list. -/
def trimChars (cs : List Char) : List Char :=
  ((cs.dropWhile jsIsSpace).reverse.dropWhile jsIsSpace).reverse

/-- `s.trim()`. -/
def jsTrim (s : String) : String := String.mk (trimChars s.data)

/-- Numeric value of a decimal digit string (the unary `+` of the source,
restricted to the all-digit captures it is applied to). -/
def digitsToNat (cs : List Char) : Nat :=
  cs.foldl (fun a c => 10 * a + (c.toNat - '0'.toNat)) 0

/-- The guard regex `/^\d{4}-\d{2}-\d{2}$/` of `getWeekOffset`. -/
def isCanonShape (s : String) : Bool :=
  match s.data with
  | [y1, y2, y3, y4, h1, m1, m2, h2, d1, d2] =>
    y1.isDigit && y2.isDigit && y3.isDigit && y4.isDigit && h1 == '-' &&
    m1.isDigit && m2.isDigit && h2 == '-' && d1.isDigit && d2.isDigit
  | _ => false

/-- Gregorian leap-year rule (as in ECMAScript date arithmetic). -/
def isLeap (y : Nat) : Bool :=
  (y % 4 == 0 && !(y % 100 == 0)) || y % 400 == 0

/-- Number of days of month `m` (1-based) of year `y`. -/
def daysInMonth (y m : Nat) : Nat :=
  if m == 2 then (if isLeap y then 29 else 28)
  else if m == 4 || m == 6 || m == 9 || m == 11 then 30
  else 31

/-- Days of year `y` strictly before month `m` (1-based). -/
def daysBeforeMonth (y m : Nat) : Nat :=
  (List.range (m - 1)).foldl (fun a i => a + daysInMonth y (i + 1)) 0

/-- Days from 0000-01-01 to `y`-`m`-`d` in the proleptic Gregorian calendar. -/
def daysSinceYear0 (y m d : Nat) : Nat :=
  365 * y + (y + 3) / 4 - (y + 99) / 100 + (y + 399) / 400 +
    daysBeforeMonth y m + (d - 1)

/-- Epoch milliseconds of `y`-`m`-`d` at midnight UTC
(1970-01-01 is day 719528 since year 0). -/
def epochMs (y m d : Nat) : Int :=
  ((daysSinceYear0 y m d : Int) - 719528) * 86400000

/-- `new Date(s ++ "T00:00:00Z").getTime()` for a ten-character
`\d{4}-\d{2}-\d{2}`-shaped `s` (the only call site is behind `isCanonShape`):
`none` models an invalid date (`NaN`), which V8 produces for an out-of-range
month or a day not existing in the given month/year. -/
def parseCanonMs (s : String) : Option Int :=
  match s.data with
  | [y1, y2, y3, y4, _, m1, m2, _, d1, d2] =>
    let y := digitsToNat [y1, y2, y3, y4]
    let m := digitsToNat [m1, m2]
    let d := digitsToNat [d1, d2]
    if 1 ≤ m ∧ m ≤ 12 ∧ 1 ≤ d ∧ d ≤ daysInMonth y m then some (epochMs y m d)
    else none
  | _ => none

/-- Body of `getWeekOffset` after the falsy/typeof guard, for a string
argument `s` and current time `now` (ms). Mirrors lines 14–35 of
`src/server.ts`: trim, shape guard, parse, absolute difference, floor
division by a week of milliseconds, `+1` baseline, clamp, future override. -/
def weekOffsetBody (s : String) (now : Int) : Int :=
  if isCanonShape (jsTrim s) = false then 0
  else
    match parseCanonMs (jsTrim s) with
    | none => 0
    | some past =>
      let diffWeeks : Nat := (now - past).natAbs / 604800000
      let result : Int := (diffWeeks : Int) + 1
      let clamped : Int := if result < 1 then 1 else result
      if now < past then 1 else clamped

/-- `getWeekOffset(pastDate)` at current time `now`; `none` would model a
thrown `TypeError`, which the typeof guard makes unreachable. -/
def getWeekOffsetE (pastDate : JSValue) (now : Int) : Option Int :=
  if truthy pastDate = false ∨ isString pastDate = false then some 0
  else
    match pastDate with
    | .str s => some (weekOffsetBody s now)
    | _ => none

/-- The separator class `[-./_]` of the direct numeric pattern. -/
def isSep (c : Char) : Bool :=
  c == '-' || c == '.' || c == '/' || c == '_'

/-- Greedy `\d{1,2}`: one digit, and a second if present. Equivalent to the
backtracking regex here because the atom following every use cannot match a
digit. -/
def takeDigits2 : List Char → Option (List Char × List Char)
  | [] => none
  | c1 :: rest =>
    if c1.isDigit then
      match rest with
      | c2 :: rest2 => if c2.isDigit then some ([c1, c2], rest2) else some ([c1], rest)
      | [] => some ([c1], [])
    else none

/-- The direct numeric pattern `/^(\d{4})[-./_](\d{1,2})[-./_](\d{1,2})$/`,
returning the three captures. Note the two separators are matched
independently; the regex does not require them to be the same character. -/
def directMatch (cs : List Char) : Option (List Char × List Char × List Char) :=
  match cs with
  | y1 :: y2 :: y3 :: y4 :: s1 :: rest =>
    if y1.isDigit && y2.isDigit && y3.isDigit && y4.isDigit && isSep s1 then
      match takeDigits2 rest with
      | some (m, s2 :: rest2) =>
        if isSep s2 then
          match takeDigits2 rest2 with
          | some (d, []) => some ([y1, y2, y3, y4], m, d)
          | _ => none
        else none
      | _ => none
    else none
  | _ => none

/-- `x.padStart(2, '0')`. -/
def padStart2 (cs : List Char) : List Char :=
  if cs.length = 0 then ['0', '0']
  else if cs.length = 1 then '0' :: cs
  else cs

/-- The `MONTHS` record of the source, in its insertion order. -/
def MONTHS : List (List Char × List Char) :=
  [("january".data, "01".data), ("february".data, "02".data), ("march".data, "03".data),
   ("april".data, "04".data), ("may".data, "05".data), ("june".data, "06".data),
   ("july".data, "07".data), ("august".data, "08".data), ("september".data, "09".data),
   ("october".data, "10".data), ("november".data, "11".data), ("december".data, "12".data)]

/-- The month-name alternation of the two word-order regexes, in source
order. -/
def monthNames : List (List Char) :=
  ["january".data, "february".data, "march".data, "april".data, "may".data,
   "june".data, "july".data, "august".data, "september".data, "october".data,
   "november".data, "december".data]

/-- Strip a literal leading sequence, returning the remainder on success. -/
def dropLead : List Char → List Char → Option (List Char)
  | [], cs => some cs
  | _ :: _, [] => none
  | p :: ps, c :: cs => if p == c then dropLead ps cs else none

/-- First alternative of `ns` that is a leading sequence of `cs`, with the
remainder. Alternation order is irrelevant here since no month name leads
another, but source order is kept. -/
def stripMonthList : List (List Char) → List Char → Option (List Char × List Char)
  | [], _ => none
  | n :: ns, cs =>
    match dropLead n cs with
    | some rest => some (n, rest)
    | none => stripMonthList ns cs

/-- The month-name alternation `(january|february|...|december)`. -/
def stripMonth (cs : List Char) : Option (List Char × List Char) :=
  stripMonthList monthNames cs

/-- `MONTHS[mon]` interpolated into a template literal: a missing key would
interpolate as the text `undefined` (no exception). -/
def monthNum (mon : List Char) : List Char :=
  (((MONTHS.find? (fun p => p.1 == mon)).map Prod.snd)).getD "undefined".data

/-- `\s+`: at least one JavaScript whitespace character, greedily consumed. -/
def dropSpaces1 (cs : List Char) : Option (List Char) :=
  match cs with
  | c :: rest => if jsIsSpace c then some (rest.dropWhile jsIsSpace) else none
  | [] => none

/-- The optional ordinal suffix `(?:st|nd|rd|th)?`. Consuming it greedily is
equivalent to the regex because `\s+` follows and the suffix letters are not
whitespace. -/
def dropOrdinal (cs : List Char) : List Char :=
  match cs with
  | a :: b :: rest =>
    if (a == 's' && b == 't') || (a == 'n' && b == 'd') ||
       (a == 'r' && b == 'd') || (a == 't' && b == 'h') then rest
    else cs
  | _ => cs

/-- `(\d{4})$`: exactly four digits ending the input. -/
def year4End (cs : List Char) : Option (List Char) :=
  match cs with
  | [a, b, c, d] => if a.isDigit && b.isDigit && c.isDigit && d.isDigit then some [a, b, c, d] else none
  | _ => none

/-- `/^(month)\s+(\d{1,2})(?:st|nd|rd|th)?\s+(\d{4})$/` on the lowered
string, returning the captures `(month, day, year)`. -/
def matchM1 (cs : List Char) : Option (List Char × List Char × List Char) :=
  match stripMonth cs with
  | none => none
  | some (mon, r1) =>
    match dropSpaces1 r1 with
    | none => none
    | some r2 =>
      match takeDigits2 r2 with
      | none => none
      | some (d, r3) =>
        match dropSpaces1 (dropOrdinal r3) with
        | none => none
        | some r4 =>
          match year4End r4 with
          | none => none
          | some y => some (mon, d, y)

/-- `/^(\d{1,2})(?:st|nd|rd|th)?\s+(month)\s+(\d{4})$/` on the lowered
string, returning the captures `(day, month, year)`. -/
def matchM2 (cs : List Char) : Option (List Char × List Char × List Char) :=
  match takeDigits2 cs with
  | none => none
  | some (d, r1) =>
    match dropSpaces1 (dropOrdinal r1) with
    | none => none
    | some r2 =>
      match stripMonth r2 with
      | none => none
      | some (mon, r3) =>
        match dropSpaces1 r3 with
        | none => none
        | some r4 =>
          match year4End r4 with
          | none => none
          | some y => some (d, mon, y)

/-- The output template literal found in all the branches. -/
def assemble (y mm dd : List Char) : String :=
  String.mk (y ++ '-' :: mm ++ '-' :: dd)

/-- Lines 54–74 of `src/server.ts`: lower-case, strip commas, try the two
month-name word orders, else the empty string. `cs` is the trimmed input. -/
def monthNameBranches (cs : List Char) : String :=
  let low := (cs.map Char.toLower).filter (fun c => !(c == ','))
  match matchM1 low with
  | some (mon, d, y) => assemble y (monthNum mon) (padStart2 d)
  | none =>
    match matchM2 low with
    | some (d, mon, y) => assemble y (monthNum mon) (padStart2 d)
    | none => ""

/-- The range check of the direct numeric branch, applied — as in the
source — to the zero-padded month and day captures:
`+month >= 1 && +month <= 12 && +day >= 1 && +day <= 31`. -/
def DirectRange (m d : List Char) : Prop :=
  1 ≤ digitsToNat (padStart2 m) ∧ digitsToNat (padStart2 m) ≤ 12 ∧
    1 ≤ digitsToNat (padStart2 d) ∧ digitsToNat (padStart2 d) ≤ 31

instance (m d : List Char) : Decidable (DirectRange m d) := by
  unfold DirectRange
  infer_instance

/-- Body of `normaliseDate` for a string argument (lines 45–74): trim,
direct numeric pattern with zero-padding and range check, else the
month-name branches. -/
def normaliseDateStr (raw : String) : String :=
  match directMatch (jsTrim raw).data with
  | some (y, m, d) =>
    if DirectRange m d then assemble y (padStart2 m) (padStart2 d)
    else monthNameBranches (jsTrim raw).data
  | none => monthNameBranches (jsTrim raw).data

/-- `normaliseDate(raw)`; unlike `getWeekOffset` there is no typeof guard,
so `raw.trim()` on a truthy non-string throws a `TypeError` (`none`). -/
def normaliseDateE (raw : JSValue) : Option String :=
  if truthy raw = false then some ""
  else
    match raw with
    | .str s => some (normaliseDateStr s)
    | _ => none

/-- The validation-failure condition of `getWeekOffset`: falsy or non-string
argument, trimmed shape mismatch, or an invalid (NaN) parsed date. -/
def failsValidation : JSValue → Bool
  | .null => true
  | .undef => true
  | .num _ => true
  | .bool _ => true
  | .str s => s == "" || !isCanonShape (jsTrim s) || (parseCanonMs (jsTrim s)).isNone

/-- Numeric value of the day field of a `\d{4}-\d{2}-\d{2}` string. -/
def dayVal (s : String) : Nat := digitsToNat (s.data.drop 8)

/-- The shape of every non-empty `normaliseDate` result: a four-digit year,
a two-digit month between 01 and 12, and a two-digit day, hyphen-separated. -/
def OutputForm (s : String) : Prop :=
  ∃ y mm dd, s = assemble y mm dd ∧
    y.length = 4 ∧ y.all Char.isDigit = true ∧
    mm.length = 2 ∧ mm.all Char.isDigit = true ∧
    1 ≤ digitsToNat mm ∧ digitsToNat mm ≤ 12 ∧
    dd.length = 2 ∧ dd.all Char.isDigit = true

/-- What a successful match of the direct numeric pattern says about the
input: four year digits, then a separator from `[-./_]`, then one or two
month digits, then a second, independently chosen separator from the same
class, then one or two day digits ending the input. -/
def DirectShapeSpec (cs y m d : List Char) : Prop :=
  ∃ s1 s2, isSep s1 = true ∧ isSep s2 = true ∧ cs = y ++ s1 :: (m ++ s2 :: d) ∧
    y.length = 4 ∧ y.all Char.isDigit = true ∧
    (m.length = 1 ∨ m.length = 2) ∧ m.all Char.isDigit = true ∧
    (d.length = 1 ∨ d.length = 2) ∧ d.all Char.isDigit = true

/-! ## Helper lemmas for `getWeekOffset` -/

lemma canonShape_ne_empty {s : String} (h : isCanonShape (jsTrim s) = true) : s ≠ "" := by
  intro he
  rw [he] at h
  exact absurd h (by decide)

lemma getWeekOffsetE_str (s : String) (now : Int) (hs : s ≠ "") :
    getWeekOffsetE (JSValue.str s) now = some (weekOffsetBody s now) := by
  have hguard : ¬ (truthy (JSValue.str s) = false ∨ isString (JSValue.str s) = false) := by
    simp [truthy, isString, hs]
  simp only [getWeekOffsetE, if_neg hguard]

lemma weekOffsetBody_valid (s : String) (t now : Int)
    (h1 : isCanonShape (jsTrim s) = true) (h2 : parseCanonMs (jsTrim s) = some t) :
    weekOffsetBody s now =
      if now < t then 1 else (((now - t).natAbs / 604800000 : Nat) : Int) + 1 := by
  simp only [weekOffsetBody, h1, h2]
  generalize (now - t).natAbs / 604800000 = k
  have hk : ¬ ((k : Int) + 1 < 1) := by omega
  simp only [if_neg hk]
  rfl

lemma getWeekOffsetE_valid (s : String) (t now : Int)
    (h1 : isCanonShape (jsTrim s) = true) (h2 : parseCanonMs (jsTrim s) = some t) :
    getWeekOffsetE (JSValue.str s) now =
      some (if now < t then 1 else (((now - t).natAbs / 604800000 : Nat) : Int) + 1) := by
  rw [getWeekOffsetE_str s now (canonShape_ne_empty h1), weekOffsetBody_valid s t now h1 h2]

lemma weekOffsetBody_invalid (s : String) (now : Int)
    (h : isCanonShape (jsTrim s) = false ∨ parseCanonMs (jsTrim s) = none) :
    weekOffsetBody s now = 0 := by
  unfold weekOffsetBody
  rcases h with h | h
  · rw [if_pos h]
  · by_cases h1 : isCanonShape (jsTrim s) = false
    · rw [if_pos h1]
    · rw [if_neg h1, h]

lemma getWeekOffsetE_invalid (v : JSValue) (now : Int) (h : failsValidation v = true) :
    getWeekOffsetE v now = some 0 := by
  cases v with
  | null => simp [getWeekOffsetE, truthy]
  | undef => simp [getWeekOffsetE, truthy]
  | num n => simp [getWeekOffsetE, isString]
  | bool b => simp [getWeekOffsetE, isString]
  | str s =>
    by_cases hs : s = ""
    · subst hs; simp [getWeekOffsetE, truthy]
    · rw [getWeekOffsetE_str s now hs]
      simp only [failsValidation, Bool.or_eq_true, beq_iff_eq, Bool.not_eq_true',
        Option.isNone_iff_eq_none] at h
      rcases h with (h | h) | h
      · exact absurd h hs
      · rw [weekOffsetBody_invalid s now (Or.inl h)]
      · rw [weekOffsetBody_invalid s now (Or.inr h)]

lemma getWeekOffsetE_isSome (v : JSValue) (now : Int) : (getWeekOffsetE v now).isSome = true := by
  cases v with
  | str s =>
    by_cases hs : s = ""
    · subst hs; simp [getWeekOffsetE, truthy]
    · rw [getWeekOffsetE_str s now hs]; rfl
  | null => simp [getWeekOffsetE, truthy]
  | undef => simp [getWeekOffsetE, truthy]
  | num n => simp [getWeekOffsetE, isString]
  | bool b => simp [getWeekOffsetE, isString]

/-! ## Claims C1, C2, C4, C5, C6 -/

/-- C1 as stated is false: `getWeekOffset` does not return a value ≥ 1 on
validation-failure inputs; the empty string yields `0`. -/
theorem c1_counterexample :
    ¬ (∀ (v : JSValue) (now k : Int), getWeekOffsetE v now = some k → 1 ≤ k) := by
  intro h
  have h0 := h (JSValue.str "") 0 0 (by decide)
  omega

/-- C1 amended: `getWeekOffset` returns an integer ≥ 1 for every input that
passes its validation (a truthy string whose trimmed form matches
`\d{4}-\d{2}-\d{2}` and parses as a valid date); on validation-failure
inputs it returns the fallback `0`, not a value ≥ 1. -/
theorem c1_amended :
    (∀ (s : String) (now t : Int), isCanonShape (jsTrim s) = true →
        parseCanonMs (jsTrim s) = some t →
        ∃ k, getWeekOffsetE (JSValue.str s) now = some k ∧ 1 ≤ k)
    ∧ (∀ (v : JSValue) (now : Int), failsValidation v = true →
        getWeekOffsetE v now = some 0) := by
  constructor
  · intro s now t h1 h2
    refine ⟨_, getWeekOffsetE_valid s t now h1 h2, ?_⟩
    split
    · omega
    · generalize (now - t).natAbs / 604800000 = k
      omega
  · exact getWeekOffsetE_invalid

theorem c1_witness : ∃ k, getWeekOffsetE (JSValue.str "2025-06-15") 0 = some k ∧ 1 ≤ k :=
  c1_amended.1 "2025-06-15" 0 1749945600000 (by decide) (by decide)

/-- C2 as stated is false: `normaliseDate` has no typeof guard, so a truthy
non-string argument (here the number `5`) reaches `raw.trim()` and throws a
`TypeError` instead of returning a defined value. -/
theorem c2_counterexample : (normaliseDateE (JSValue.num 5)).isSome = false := by decide

/-- C2 amended: `getWeekOffset` returns a defined integer for every input
(including non-strings and null-like values); `normaliseDate` returns a
defined string for every string input (including the empty string) and for
every falsy argument, but not for truthy non-string arguments. -/
theorem c2_amended :
    (∀ (v : JSValue) (now : Int), (getWeekOffsetE v now).isSome = true)
    ∧ (∀ s : String, (normaliseDateE (JSValue.str s)).isSome = true)
    ∧ (∀ v : JSValue, truthy v = false → (normaliseDateE v).isSome = true) := by
  refine ⟨getWeekOffsetE_isSome, ?_, ?_⟩
  · intro s
    by_cases hs : s = ""
    · subst hs; simp [normaliseDateE, truthy]
    · simp [normaliseDateE, truthy, hs]
  · intro v hv
    simp [normaliseDateE, hv]

theorem c2_witness : (normaliseDateE JSValue.null).isSome = true :=
  c2_amended.2.2 JSValue.null (by decide)

/-- C4: every validation failure of `getWeekOffset` — falsy argument,
non-string argument, trimmed shape mismatch, or a shape-valid string that is
not a real calendar date — returns the fallback `0`, for every `now`. -/
theorem c4_invalid_fallback (v : JSValue) (now : Int) (h : failsValidation v = true) :
    getWeekOffsetE v now = some 0 :=
  getWeekOffsetE_invalid v now h

theorem c4_witness :
    failsValidation (JSValue.str "2025-02-30") = true ∧
      getWeekOffsetE (JSValue.str "2025-02-30") 0 = some 0 :=
  ⟨by decide, c4_invalid_fallback (JSValue.str "2025-02-30") 0 (by decide)⟩

/-- C5: for every valid `pastDate` whose parsed midnight-UTC instant is
strictly later than `now`, `getWeekOffset` returns exactly 1, however far in
the future the date lies. -/
theorem c5_future_one (s : String) (t now : Int)
    (h1 : isCanonShape (jsTrim s) = true) (h2 : parseCanonMs (jsTrim s) = some t)
    (h3 : now < t) :
    getWeekOffsetE (JSValue.str s) now = some 1 := by
  rw [getWeekOffsetE_valid s t now h1 h2, if_pos h3]

theorem c5_witness : getWeekOffsetE (JSValue.str "2999-01-01") 0 = some 1 :=
  c5_future_one "2999-01-01" 32472144000000 0 (by decide) (by decide) (by decide)

/-- C6: for a valid `pastDate` not later than `now` the result is
`floor(elapsed-ms / (7*24*60*60*1000)) + 1`; with `now` fixed at midnight
UTC 2025-06-15, the date itself gives 1, 7 days earlier gives 2, 13 days
earlier gives 2, and 14 days earlier gives 3. -/
theorem c6_week_formula :
    (∀ (s : String) (t now : Int), isCanonShape (jsTrim s) = true →
        parseCanonMs (jsTrim s) = some t → t ≤ now →
        getWeekOffsetE (JSValue.str s) now =
          some ((((now - t).natAbs / 604800000 : Nat) : Int) + 1))
    ∧ getWeekOffsetE (JSValue.str "2025-06-15") 1749945600000 = some 1
    ∧ getWeekOffsetE (JSValue.str "2025-06-08") 1749945600000 = some 2
    ∧ getWeekOffsetE (JSValue.str "2025-06-02") 1749945600000 = some 2
    ∧ getWeekOffsetE (JSValue.str "2025-06-01") 1749945600000 = some 3 := by
  refine ⟨?_, by decide, by decide, by decide, by decide⟩
  intro s t now h1 h2 h3
  rw [getWeekOffsetE_valid s t now h1 h2, if_neg (by omega)]

theorem c6_witness : getWeekOffsetE (JSValue.str "2025-05-26") 1749945600000 = some 3 := by
  have h := c6_week_formula.1 "2025-05-26" 1748217600000 1749945600000
    (by decide) (by decide) (by decide)
  rw [h]
  decide

/-! ## Helper lemmas for `normaliseDate` -/

lemma exists_len2 {l : List Char} (h : l.length = 2) : ∃ a b, l = [a, b] := by
  rcases l with _ | ⟨a, _ | ⟨b, _ | ⟨c, t⟩⟩⟩
  · simp only [List.length_nil] at h; omega
  · simp only [List.length_cons, List.length_nil] at h; omega
  · exact ⟨a, b, rfl⟩
  · simp only [List.length_cons] at h; omega

lemma exists_len4 {l : List Char} (h : l.length = 4) : ∃ a b c d, l = [a, b, c, d] := by
  rcases l with _ | ⟨a, _ | ⟨b, _ | ⟨c, _ | ⟨d, _ | ⟨e, t⟩⟩⟩⟩⟩
  · simp only [List.length_nil] at h; omega
  · simp only [List.length_cons, List.length_nil] at h; omega
  · simp only [List.length_cons, List.length_nil] at h; omega
  · simp only [List.length_cons, List.length_nil] at h; omega
  · exact ⟨a, b, c, d, rfl⟩
  · simp only [List.length_cons] at h; omega

lemma takeDigits2_spec {cs ds rest : List Char} (h : takeDigits2 cs = some (ds, rest)) :
    cs = ds ++ rest ∧ ds.all Char.isDigit = true ∧ (ds.length = 1 ∨ ds.length = 2) := by
  rcases cs with _ | ⟨c1, _ | ⟨c2, cs2⟩⟩
  · simp [takeDigits2] at h
  · simp only [takeDigits2] at h
    split at h
    · simp only [Option.some.injEq, Prod.mk.injEq] at h
      obtain ⟨rfl, rfl⟩ := h
      simp_all
    · simp at h
  · simp only [takeDigits2] at h
    split at h
    case isTrue h1 =>
      split at h
      case isTrue h2 =>
        simp only [Option.some.injEq, Prod.mk.injEq] at h
        obtain ⟨rfl, rfl⟩ := h
        simp_all
      case isFalse h2 =>
        simp only [Option.some.injEq, Prod.mk.injEq] at h
        obtain ⟨rfl, rfl⟩ := h
        simp_all
    case isFalse h1 => simp at h

lemma year4End_spec {cs y : List Char} (h : year4End cs = some y) :
    cs = y ∧ y.length = 4 ∧ y.all Char.isDigit = true := by
  unfold year4End at h
  split at h
  case h_1 a b c d =>
    split at h
    case isTrue hd =>
      simp only [Option.some.injEq] at h
      subst h
      simp_all
    case isFalse => simp at h
  case h_2 => simp at h

lemma dropLead_spec : ∀ (p cs rest : List Char), dropLead p cs = some rest → cs = p ++ rest := by
  intro p
  induction p with
  | nil =>
    intro cs rest h
    simp only [dropLead, Option.some.injEq] at h
    simp [h]
  | cons x xs ih =>
    intro cs rest h
    rcases cs with _ | ⟨c, cs'⟩
    · simp [dropLead] at h
    · simp only [dropLead] at h
      split at h
      case isTrue hx =>
        have h2 := ih cs' rest h
        have hx' : x = c := by simpa using hx
        subst hx'
        simp [h2]
      case isFalse => simp at h

lemma stripMonthList_mem : ∀ (ns : List (List Char)) (cs mon rest : List Char),
    stripMonthList ns cs = some (mon, rest) → mon ∈ ns := by
  intro ns
  induction ns with
  | nil => intro cs mon rest h; simp [stripMonthList] at h
  | cons n ns' ih =>
    intro cs mon rest h
    simp only [stripMonthList] at h
    split at h
    case h_1 r heq =>
      simp only [Option.some.injEq, Prod.mk.injEq] at h
      obtain ⟨rfl, rfl⟩ := h
      exact List.mem_cons_self _ _
    case h_2 => exact List.mem_cons_of_mem _ (ih cs mon rest h)

lemma padStart2_spec {ds : List Char} (hd : ds.all Char.isDigit = true)
    (hl : ds.length = 1 ∨ ds.length = 2) :
    (padStart2 ds).length = 2 ∧ (padStart2 ds).all Char.isDigit = true := by
  rcases ds with _ | ⟨a, _ | ⟨b, t⟩⟩
  · rcases hl with hl | hl <;> simp at hl
  · simp_all [padStart2]
  · have ht : t = [] := by
      have h0 : t.length = 0 := by
        rcases hl with hl | hl <;> simp only [List.length_cons] at hl <;> omega
      exact List.length_eq_zero.mp h0
    subst ht
    simp_all [padStart2]

lemma monthNum_spec {mon : List Char} (h : mon ∈ monthNames) :
    (monthNum mon).length = 2 ∧ (monthNum mon).all Char.isDigit = true ∧
      1 ≤ digitsToNat (monthNum mon) ∧ digitsToNat (monthNum mon) ≤ 12 := by
  simp only [monthNames, List.mem_cons, List.not_mem_nil, or_false] at h
  rcases h with rfl | rfl | rfl | rfl | rfl | rfl | rfl | rfl | rfl | rfl | rfl | rfl <;> decide

lemma directMatch_spec {cs y m d : List Char} (h : directMatch cs = some (y, m, d)) :
    DirectShapeSpec cs y m d := by
  unfold directMatch at h
  split at h
  case h_1 y1 y2 y3 y4 s1 rest =>
    split at h
    case isTrue hguard =>
      split at h
      case h_1 m' s2 rest2 heq2 =>
        split at h
        case isTrue hs2 =>
          split at h
          case h_1 d' heq3 =>
            simp only [Option.some.injEq, Prod.mk.injEq] at h
            obtain ⟨rfl, rfl, rfl⟩ := h
            simp only [Bool.and_eq_true] at hguard
            obtain ⟨⟨⟨⟨h1, h2⟩, h3⟩, h4⟩, hs1⟩ := hguard
            have hm := takeDigits2_spec heq2
            have hd := takeDigits2_spec heq3
            refine ⟨s1, s2, hs1, hs2, ?_, rfl, ?_, hm.2.2, hm.2.1, hd.2.2, hd.2.1⟩
            · rw [hm.1, hd.1]
              simp
            · simp [h1, h2, h3, h4]
          case h_2 => simp at h
        case isFalse => simp at h
      case h_2 => simp at h
    case isFalse => simp at h
  case h_2 => simp at h

lemma matchM1_spec {cs mon d y : List Char} (h : matchM1 cs = some (mon, d, y)) :
    mon ∈ monthNames ∧ d.all Char.isDigit = true ∧ (d.length = 1 ∨ d.length = 2) ∧
      y.length = 4 ∧ y.all Char.isDigit = true := by
  unfold matchM1 at h
  split at h
  case h_1 => simp at h
  case h_2 mon' r1 heq1 =>
    split at h
    case h_1 => simp at h
    case h_2 r2 heq2 =>
      split at h
      case h_1 => simp at h
      case h_2 d' r3 heq3 =>
        split at h
        case h_1 => simp at h
        case h_2 r4 heq4 =>
          split at h
          case h_1 => simp at h
          case h_2 y' heq5 =>
            simp only [Option.some.injEq, Prod.mk.injEq] at h
            obtain ⟨rfl, rfl, rfl⟩ := h
            have hd := takeDigits2_spec heq3
            have hy := year4End_spec heq5
            exact ⟨stripMonthList_mem _ _ _ _ heq1,
              hd.2.1, hd.2.2, hy.2.1, hy.2.2⟩

lemma matchM2_spec {cs d mon y : List Char} (h : matchM2 cs = some (d, mon, y)) :
    mon ∈ monthNames ∧ d.all Char.isDigit = true ∧ (d.length = 1 ∨ d.length = 2) ∧
      y.length = 4 ∧ y.all Char.isDigit = true := by
  unfold matchM2 at h
  split at h
  case h_1 => simp at h
  case h_2 d' r1 heq1 =>
    split at h
    case h_1 => simp at h
    case h_2 r2 heq2 =>
      split at h
      case h_1 => simp at h
      case h_2 mon' r3 heq3 =>
        split at h
        case h_1 => simp at h
        case h_2 r4 heq4 =>
          split at h
          case h_1 => simp at h
          case h_2 y' heq5 =>
            simp only [Option.some.injEq, Prod.mk.injEq] at h
            obtain ⟨rfl, rfl, rfl⟩ := h
            have hd := takeDigits2_spec heq1
            have hy := year4End_spec heq5
            exact ⟨stripMonthList_mem _ _ _ _ heq3,
              hd.2.1, hd.2.2, hy.2.1, hy.2.2⟩

lemma monthNameBranches_form (cs : List Char) :
    monthNameBranches cs = "" ∨ OutputForm (monthNameBranches cs) := by
  unfold monthNameBranches
  dsimp only
  split
  case h_1 mon d y heq =>
    right
    have h1 := matchM1_spec heq
    have hmn := monthNum_spec h1.1
    have hpd := padStart2_spec h1.2.1 h1.2.2.1
    exact ⟨y, monthNum mon, padStart2 d, rfl, h1.2.2.2.1, h1.2.2.2.2,
      hmn.1, hmn.2.1, hmn.2.2.1, hmn.2.2.2, hpd.1, hpd.2⟩
  case h_2 =>
    split
    case h_1 d mon y heq =>
      right
      have h1 := matchM2_spec heq
      have hmn := monthNum_spec h1.1
      have hpd := padStart2_spec h1.2.1 h1.2.2.1
      exact ⟨y, monthNum mon, padStart2 d, rfl, h1.2.2.2.1, h1.2.2.2.2,
        hmn.1, hmn.2.1, hmn.2.2.1, hmn.2.2.2, hpd.1, hpd.2⟩
    case h_2 => left; rfl

lemma normaliseDateStr_form (raw : String) :
    normaliseDateStr raw = "" ∨ OutputForm (normaliseDateStr raw) := by
  unfold normaliseDateStr
  split
  case h_1 y m d heq =>
    split
    case isTrue hrange =>
      right
      obtain ⟨s1, s2, -, -, -, hy4, hyd, hml, hmd, hdl, hdd⟩ := directMatch_spec heq
      have hpm := padStart2_spec hmd hml
      have hpd := padStart2_spec hdd hdl
      exact ⟨y, padStart2 m, padStart2 d, rfl, hy4, hyd,
        hpm.1, hpm.2, hrange.1, hrange.2.1, hpd.1, hpd.2⟩
    case isFalse => exact monthNameBranches_form _
  case h_2 => exact monthNameBranches_form _

lemma digit_not_space {c : Char} (h : c.isDigit = true) : jsIsSpace c = false := by
  cases hjs : jsIsSpace c with
  | false => rfl
  | true =>
    exfalso
    simp only [jsIsSpace, Bool.or_eq_true, beq_iff_eq] at hjs
    casesm* _ ∨ _ <;> subst_vars <;> exact absurd h (by decide)

lemma dropWhile_of_neg {p : Char → Bool} {l : List Char} (h : ∀ c ∈ l, p c = false) :
    l.dropWhile p = l := by
  cases l with
  | nil => rfl
  | cons a t => simp [List.dropWhile_cons, h a (by simp)]

lemma trimChars_of_noSpace {cs : List Char} (h : ∀ c ∈ cs, jsIsSpace c = false) :
    trimChars cs = cs := by
  unfold trimChars
  rw [dropWhile_of_neg h]
  rw [dropWhile_of_neg (fun c hc => h c (List.mem_reverse.mp hc))]
  exact List.reverse_reverse cs

lemma assemble_data (y mm dd : List Char) :
    (assemble y mm dd).data = y ++ '-' :: mm ++ '-' :: dd := rfl

lemma assemble_shape {y mm dd : List Char}
    (hy4 : y.length = 4) (hyd : y.all Char.isDigit = true)
    (hm2 : mm.length = 2) (hmd : mm.all Char.isDigit = true)
    (hd2 : dd.length = 2) (hdd : dd.all Char.isDigit = true) :
    isCanonShape (assemble y mm dd) = true := by
  obtain ⟨a, b, c, e, rfl⟩ := exists_len4 hy4
  obtain ⟨p, q, rfl⟩ := exists_len2 hm2
  obtain ⟨r, t, rfl⟩ := exists_len2 hd2
  simp only [List.all_cons, List.all_nil, Bool.and_eq_true, Bool.and_true] at hyd hmd hdd
  simp [isCanonShape, assemble, hyd.1, hyd.2.1, hyd.2.2.1, hyd.2.2.2,
    hmd.1, hmd.2, hdd.1, hdd.2]

lemma renormalise_assemble {y mm dd : List Char}
    (hy4 : y.length = 4) (hyd : y.all Char.isDigit = true)
    (hm2 : mm.length = 2) (hmd : mm.all Char.isDigit = true)
    (hm1 : 1 ≤ digitsToNat mm) (hm12 : digitsToNat mm ≤ 12)
    (hd2 : dd.length = 2) (hdd : dd.all Char.isDigit = true)
    (hdd1 : 1 ≤ digitsToNat dd) (hdd31 : digitsToNat dd ≤ 31) :
    normaliseDateStr (assemble y mm dd) = assemble y mm dd := by
  obtain ⟨a, b, c, e, rfl⟩ := exists_len4 hy4
  obtain ⟨p, q, rfl⟩ := exists_len2 hm2
  obtain ⟨r, t, rfl⟩ := exists_len2 hd2
  simp only [List.all_cons, List.all_nil, Bool.and_eq_true, Bool.and_true] at hyd hmd hdd
  obtain ⟨ha, hb, hcc, he⟩ := hyd
  obtain ⟨hp, hq⟩ := hmd
  obtain ⟨hr, ht⟩ := hdd
  have htrim : jsTrim (assemble [a, b, c, e] [p, q] [r, t]) =
      assemble [a, b, c, e] [p, q] [r, t] := by
    unfold jsTrim
    rw [assemble_data, trimChars_of_noSpace]
    · rfl
    · intro ch hch
      simp only [List.cons_append, List.nil_append, List.mem_cons, List.not_mem_nil,
        or_false] at hch
      rcases hch with rfl | rfl | rfl | rfl | rfl | rfl | rfl | rfl | rfl | rfl
      · exact digit_not_space ha
      · exact digit_not_space hb
      · exact digit_not_space hcc
      · exact digit_not_space he
      · decide
      · exact digit_not_space hp
      · exact digit_not_space hq
      · decide
      · exact digit_not_space hr
      · exact digit_not_space ht
  have hdm : directMatch (assemble [a, b, c, e] [p, q] [r, t]).data =
      some ([a, b, c, e], [p, q], [r, t]) := by
    rw [assemble_data]
    simp only [List.cons_append, List.nil_append]
    simp [directMatch, takeDigits2, isSep, ha, hb, hcc, he, hp, hq, hr, ht]
  unfold normaliseDateStr
  rw [htrim, hdm]
  have hpadm : padStart2 [p, q] = [p, q] := rfl
  have hpadd : padStart2 [r, t] = [r, t] := rfl
  have hrange : DirectRange [p, q] [r, t] := by
    unfold DirectRange
    rw [hpadm, hpadd]
    exact ⟨hm1, hm12, hdd1, hdd31⟩
  simp only [if_pos hrange, hpadm, hpadd]

/-! ## Claims C3, C7, C8, C9, C10 -/

/-- C3 as stated is false: the numeric branch does not require the two
separators to be the same character. `"2025-6/1"` uses `-` then `/` and
still matches, yielding `"2025-06-01"` instead of falling through to the
month-name branches (which would return `""`). -/
theorem c3_counterexample :
    directMatch "2025-6/1".data = some ("2025".data, "6".data, "1".data) ∧
      "2025-6/1".data = "2025".data ++ '-' :: ("6".data ++ '/' :: "1".data) ∧
      ¬ (('-' : Char) = '/') ∧
      normaliseDateStr "2025-6/1" = "2025-06-01" ∧ ¬ (("2025-06-01" : String) = "") := by
  decide

/-- C3 amended: an input matches the numeric branch only if it decomposes as
four year digits, a separator from `-`, `.`, `/`, `_`, one or two month
digits, a second — independently chosen, not necessarily equal — separator
from the same class, and one or two day digits; for every matched input
month and day are zero-padded to two digits and the assembled result is
returned only when month is in [1,12] and day is in [1,31], otherwise the
later branches decide the result. -/
theorem c3_amended (s : String) (y m d : List Char)
    (h : directMatch (jsTrim s).data = some (y, m, d)) :
    DirectShapeSpec (jsTrim s).data y m d
    ∧ (DirectRange m d →
        normaliseDateStr s = assemble y (padStart2 m) (padStart2 d))
    ∧ (¬ DirectRange m d →
        normaliseDateStr s = monthNameBranches (jsTrim s).data) := by
  refine ⟨directMatch_spec h, ?_, ?_⟩
  · intro hr
    unfold normaliseDateStr
    rw [h]
    dsimp only
    rw [if_pos hr]
  · intro hr
    unfold normaliseDateStr
    rw [h]
    dsimp only
    rw [if_neg hr]

theorem c3_witness :
    DirectShapeSpec (jsTrim "2025.6.1").data "2025".data "6".data "1".data
    ∧ (DirectRange "6".data "1".data →
        normaliseDateStr "2025.6.1" =
          assemble "2025".data (padStart2 "6".data) (padStart2 "1".data))
    ∧ (¬ DirectRange "6".data "1".data →
        normaliseDateStr "2025.6.1" = monthNameBranches (jsTrim "2025.6.1").data) :=
  c3_amended "2025.6.1" "2025".data "6".data "1".data (by decide)

/-- C7 as stated is false: `normaliseDate` can emit `"2025-06-00"` (from
`"june 0 2025"`), which matches `\d{4}-\d{2}-\d{2}`, yet re-normalising it
returns `""`, not the string itself. -/
theorem c7_counterexample :
    normaliseDateStr "june 0 2025" = "2025-06-00" ∧
      isCanonShape "2025-06-00" = true ∧
      normaliseDateStr "2025-06-00" = "" ∧ ¬ (("2025-06-00" : String) = "") := by
  decide

/-- C7 amended: for every string `d` that `normaliseDate` emits as a
non-empty result, if `d` matches `\d{4}-\d{2}-\d{2}` and its day field lies
in [1,31], then `normaliseDate d = d`; the day-field restriction is needed
because the month-name branches can emit out-of-range days, which the
numeric branch then rejects. -/
theorem c7_amended (raw d : String) (h1 : normaliseDateStr raw = d) (h2 : ¬ (d = ""))
    (h3 : isCanonShape d = true) (h4 : 1 ≤ dayVal d ∧ dayVal d ≤ 31) :
    normaliseDateStr d = d := by
  subst h1
  rcases normaliseDateStr_form raw with h | h
  · exact absurd h h2
  · obtain ⟨y, mm, dd, heq, hy4, hyd, hm2, hmd, hm1, hm12, hd2, hdd⟩ := h
    rw [heq] at h4 ⊢
    have hday : dayVal (assemble y mm dd) = digitsToNat dd := by
      obtain ⟨a, b, c, e, rfl⟩ := exists_len4 hy4
      obtain ⟨p, q, rfl⟩ := exists_len2 hm2
      rw [dayVal, assemble_data]
      simp
    rw [hday] at h4
    exact renormalise_assemble hy4 hyd hm2 hmd hm1 hm12 hd2 hdd h4.1 h4.2

theorem c7_witness : normaliseDateStr "2025-06-01" = "2025-06-01" :=
  c7_amended "june 1 2025" "2025-06-01" (by decide) (by decide) (by decide) (by decide)

/-- C8: every `normaliseDate` result is either the empty string or a string
matching `\d{4}-\d{2}-\d{2}`; no non-empty result of any other shape. -/
theorem c8_output_shape (s : String) :
    normaliseDateStr s = "" ∨ isCanonShape (normaliseDateStr s) = true := by
  rcases normaliseDateStr_form s with h | h
  · exact Or.inl h
  · right
    obtain ⟨y, mm, dd, heq, hy4, hyd, hm2, hmd, -, -, hd2, hdd⟩ := h
    rw [heq]
    exact assemble_shape hy4 hyd hm2 hmd hd2 hdd

/-- C9: the word-order branches recognize exactly the twelve full
lower-case English month names — every matched month name is one of them,
each of the twelve is accepted in both word orders, and abbreviations are
not recognized (they yield `""`). -/
theorem c9_month_names :
    (∀ (cs mon rest : List Char), stripMonth cs = some (mon, rest) → mon ∈ monthNames)
    ∧ monthNames = ["january".data, "february".data, "march".data, "april".data,
        "may".data, "june".data, "july".data, "august".data, "september".data,
        "october".data, "november".data, "december".data]
    ∧ normaliseDateStr "january 1 2025" = "2025-01-01"
    ∧ normaliseDateStr "february 1 2025" = "2025-02-01"
    ∧ normaliseDateStr "march 1 2025" = "2025-03-01"
    ∧ normaliseDateStr "april 1 2025" = "2025-04-01"
    ∧ normaliseDateStr "may 1 2025" = "2025-05-01"
    ∧ normaliseDateStr "june 1 2025" = "2025-06-01"
    ∧ normaliseDateStr "july 1 2025" = "2025-07-01"
    ∧ normaliseDateStr "august 1 2025" = "2025-08-01"
    ∧ normaliseDateStr "september 1 2025" = "2025-09-01"
    ∧ normaliseDateStr "october 1 2025" = "2025-10-01"
    ∧ normaliseDateStr "november 1 2025" = "2025-11-01"
    ∧ normaliseDateStr "december 1 2025" = "2025-12-01"
    ∧ normaliseDateStr "1 january 2025" = "2025-01-01"
    ∧ normaliseDateStr "jan 1 2025" = ""
    ∧ normaliseDateStr "feb 1 2025" = ""
    ∧ normaliseDateStr "mar 1 2025" = ""
    ∧ normaliseDateStr "apr 1 2025" = ""
    ∧ normaliseDateStr "jun 1 2025" = ""
    ∧ normaliseDateStr "jul 1 2025" = ""
    ∧ normaliseDateStr "aug 1 2025" = ""
    ∧ normaliseDateStr "sep 1 2025" = ""
    ∧ normaliseDateStr "sept 1 2025" = ""
    ∧ normaliseDateStr "oct 1 2025" = ""
    ∧ normaliseDateStr "nov 1 2025" = ""
    ∧ normaliseDateStr "dec 1 2025" = "" :=
  ⟨fun cs mon rest h => stripMonthList_mem monthNames cs mon rest h, by decide⟩

theorem c9_witness : "january".data ∈ monthNames :=
  c9_month_names.1 "january 1 2025".data "january".data " 1 2025".data (by decide)

/-- C10: the month-name branches perform no day range check —
`"june 99 2025"` yields the non-empty `"2025-06-99"` whose day field 99 is
outside [1,31], while the numeric branch rejects that very string. -/
theorem c10_no_day_range_check :
    normaliseDateStr "june 99 2025" = "2025-06-99" ∧
      isCanonShape "2025-06-99" = true ∧
      31 < dayVal "2025-06-99" ∧
      normaliseDateStr "2025-06-99" = "" := by
  decide
